import Mathlib

/-!
# SmartFishFeeder — verification of the command-driven actuation pipeline

Shallow embedding of the repository's core C sources:

* `main/sg90_servo.c` — angle clamping, linear pulse-width interpolation,
  the comparator write, and the blocking set-then-auto-home operation;
* `main.c` (digit table `command_angle_map` and `command_handler`);
* `tcp_server.c` — per-buffer byte classification/dispatch, the sequential
  accept/read/dispatch/close serve loop, and `tcp_server_init`.

C `float` arithmetic is modelled by exact rationals (`ℚ`); at every value the
program actually computes (calibration 500/2500 µs and the ten table angles)
the IEEE single-precision result coincides with the exact rational result, so
the model is faithful on all reachable inputs.  Side effects are modelled as
explicit event traces in program order; `ESP_ERROR_CHECK` aborts the process
when its argument is not `ESP_OK`, which the embedding renders as `none`
(no return value at all).
-/

namespace SmartFishFeeder

/-- The `esp_err_t` codes the sources use: `ESP_OK`, `ESP_FAIL`,
`ESP_ERR_INVALID_STATE`. -/
inductive EspErr
  | ok
  | fail
  | invalidState
  deriving DecidableEq, Repr

/-- `sg90_config_t` (sg90_servo.h): only the calibration fields enter the
pulse-width math; the MCPWM handles are opaque to the embedded logic. -/
structure Sg90Config where
  min_pulse_width_us : ℚ
  max_pulse_width_us : ℚ
  deriving DecidableEq

/-- The range limiting at the top of `sg90_set_angle`
(sg90_servo.c lines 97–101): `if (angle < 0) angle = 0; else if
(angle > 180) angle = 180;`. -/
def clampAngle (angle : ℚ) : ℚ :=
  if angle < 0 then 0 else if angle > 180 then 180 else angle

/-- The pulse-width formula of `sg90_set_angle` (sg90_servo.c lines 103–107)
applied to the clamped angle; the spec calls this operation
`pulse_width_for_angle`. -/
def pulse_width_for_angle (angle min_us max_us : ℚ) : ℚ :=
  min_us + (clampAngle angle / 180) * (max_us - min_us)

/-- The C cast `(uint32_t)pulse_width` (sg90_servo.c line 113): truncation
toward zero.  Every pulse width the program computes is nonnegative and far
below `2^32`, where the cast is exactly `Nat.floor`. -/
def castU32 (q : ℚ) : ℕ := ⌊q⌋.toNat

/-- Observable effects of the embedded code, listed in program order. -/
inductive Ev
  | setDuty (v : ℕ)             -- mcpwm_comparator_set_compare_value
  | delay (ms : ℕ)              -- vTaskDelay
  | send (fd : ℤ) (s : String)  -- tcp_server_send_response
  | warn (c : ℕ)                -- ESP_LOGW for an invalid command byte
  | accept (fd : ℤ)             -- accept() returning a client descriptor
  | recv (fd : ℤ) (n : ℕ)       -- recv() returning n > 0 bytes (or 0)
  | close (fd : ℤ)              -- close(client_fd)
  deriving DecidableEq, Repr

/-- The Pulse Generator's duty after a trace of events runs, starting from a
prior duty `d0`: the last `setDuty` wins. -/
def dutyAfter (d0 : ℕ) : List Ev → ℕ
  | [] => d0
  | Ev.setDuty v :: tr => dutyAfter v tr
  | Ev.delay _ :: tr => dutyAfter d0 tr
  | Ev.send _ _ :: tr => dutyAfter d0 tr
  | Ev.warn _ :: tr => dutyAfter d0 tr
  | Ev.accept _ :: tr => dutyAfter d0 tr
  | Ev.recv _ _ :: tr => dutyAfter d0 tr
  | Ev.close _ :: tr => dutyAfter d0 tr

/-- `sg90_set_angle` (sg90_servo.c lines 94–116).  `hw` is the outcome of the
hardware comparator write; `ESP_ERROR_CHECK` aborts (never returns) when that
outcome is not `ESP_OK`, modelled as `none`.  On return: the trace of effects
and the returned `esp_err_t`. -/
def sg90_set_angle (hw : ℕ → EspErr) (config : Sg90Config) (angle : ℚ) :
    Option (List Ev × EspErr) :=
  let w := castU32 (pulse_width_for_angle angle
    config.min_pulse_width_us config.max_pulse_width_us)
  match hw w with
  | EspErr.ok => some ([Ev.setDuty w], EspErr.ok)
  | EspErr.fail => none
  | EspErr.invalidState => none

/-- `sg90_set_angle_with_reset` (sg90_servo.c lines 118–136): set the target
angle, propagate a non-OK result early, otherwise delay `reset_delay_ms` and
re-apply 0°. -/
def sg90_set_angle_with_reset (hw : ℕ → EspErr) (config : Sg90Config)
    (angle : ℚ) (reset_delay_ms : ℕ) : Option (List Ev × EspErr) :=
  match sg90_set_angle hw config angle with
  | none => none
  | some (tr1, ret) =>
    if ret ≠ EspErr.ok then some (tr1, ret)
    else
      match sg90_set_angle hw config 0 with
      | none => none
      | some (tr2, ret2) => some (tr1 ++ Ev.delay reset_delay_ms :: tr2, ret2)

/-- `command_angle_map` (main.c lines 202–213). -/
def command_angle_map : List ℕ := [0, 18, 36, 54, 72, 90, 108, 126, 144, 180]

/-- The digit-to-angle lookup `command_angle_map[d]`; the spec calls it
`angle_for_digit`. -/
def angle_for_digit (d : Fin 10) : ℕ := command_angle_map.getD d.val 0

/-- The success response built by `snprintf` in `command_handler`
(main.c line 236): `%c` renders the command byte, `%d` the angle. -/
def ok_response (command : ℕ) (angle : ℕ) : String :=
  "OK: Command " ++ String.singleton (Char.ofNat command) ++ " -> Angle "
    ++ toString angle ++ "° (auto reset in 1s)\n"

/-- The error response of `command_handler` (main.c line 240). -/
def err_response : String := "ERROR: Servo not initialized\n"

/-- `command_handler` (main.c lines 218–243).  `g_servo_config` is the global
servo config pointer (`none` = NULL).  A byte outside `'0'..'9'` returns with
no effect; otherwise the table angle is applied with a 1000 ms auto-reset and
a response is sent on `client_fd` (the result of `sg90_set_angle_with_reset`
is ignored by the source). -/
def command_handler (hw : ℕ → EspErr) (g_servo_config : Option Sg90Config)
    (command : ℕ) (client_fd : ℤ) : Option (List Ev) :=
  if command < 48 ∨ 57 < command then some []
  else
    let angle := command_angle_map.getD (command - 48) 0
    match g_servo_config with
    | some config =>
      match sg90_set_angle_with_reset hw config (angle : ℚ) 1000 with
      | none => none
      | some (tr, _) => some (tr ++ [Ev.send client_fd (ok_response command angle)])
    | none => some [Ev.send client_fd err_response]

/-- `cmd >= '0' && cmd <= '9'` (tcp_server.c line 98), on the byte value. -/
def isDigitByte (c : ℕ) : Bool := decide (48 ≤ c ∧ c ≤ 57)

/-- `cmd == '\n' || cmd == '\r'` (tcp_server.c line 105). -/
def isCrLf (c : ℕ) : Bool := decide (c = 10 ∨ c = 13)

/-- The per-byte dispatch loop of `tcp_server_task` (tcp_server.c lines
94–110).  `cb` is `server_state.callback` (`none` = NULL).  Returns the list
of command bytes actually passed to the callback, in buffer order, and the
trace of effects. -/
def process_bytes (cb : Option (ℕ → ℤ → Option (List Ev))) (client_fd : ℤ) :
    List ℕ → Option (List ℕ × List Ev)
  | [] => some ([], [])
  | c :: rest =>
    if isDigitByte c then
      match cb with
      | some f =>
        match f c client_fd, process_bytes cb client_fd rest with
        | some evs, some (ds, tl) => some (c :: ds, evs ++ tl)
        | _, _ => none
      | none => process_bytes cb client_fd rest
    else if isCrLf c then
      process_bytes cb client_fd rest
    else
      match process_bytes cb client_fd rest with
      | some (ds, tl) => some (ds, Ev.warn c :: tl)
      | none => none

/-- The strings written back on a connection during a trace. -/
def sendsOf (evs : List Ev) : List String :=
  evs.filterMap fun e =>
    match e with
    | Ev.send _ s => some s
    | _ => none

/-- The duty values written to the Pulse Generator during a trace. -/
def dutyWritesOf (evs : List Ev) : List ℕ :=
  evs.filterMap fun e =>
    match e with
    | Ev.setDuty v => some v
    | _ => none

def isAcceptEv : Ev → Bool
  | Ev.accept _ => true
  | _ => false

def isCloseEv : Ev → Bool
  | Ev.close _ => true
  | _ => false

def isRecvEv : Ev → Bool
  | Ev.recv _ _ => true
  | _ => false

def countAccepts (evs : List Ev) : ℕ := (evs.filter isAcceptEv).length

def countCloses (evs : List Ev) : ℕ := (evs.filter isCloseEv).length

def countRecvs (evs : List Ev) : ℕ := (evs.filter isRecvEv).length

/-- Outcome of the single `recv` call of one connection
(tcp_server.c line 87): `data buf` for `received > 0` (`buf` the bytes read,
at most 63), `peerClosed` for `received == 0`, `recvError` for
`received < 0`. -/
inductive RecvResult
  | data (buf : List ℕ)
  | peerClosed
  | recvError
  deriving DecidableEq, Repr

/-- Outcome of the `accept` call of one serve-loop iteration
(tcp_server.c line 64): a pending client (with what its single `recv` will
yield), `EAGAIN`/`EWOULDBLOCK`, or a hard accept error. -/
inductive AcceptOutcome
  | pending (fd : ℕ) (r : RecvResult)
  | wouldBlock
  | acceptError
  deriving DecidableEq, Repr

/-- One iteration of the `while (server_state.running)` loop of
`tcp_server_task` (tcp_server.c lines 59–124): failed accept sleeps 100 ms
and retries; a successful accept does one `recv`, dispatches the buffer's
bytes synchronously, closes the client, and sleeps 10 ms. -/
def server_iteration (cb : Option (ℕ → ℤ → Option (List Ev)))
    (conn : AcceptOutcome) : Option (List Ev) :=
  match conn with
  | AcceptOutcome.wouldBlock => some [Ev.delay 100]
  | AcceptOutcome.acceptError => some [Ev.delay 100]
  | AcceptOutcome.pending fd r =>
    match r with
    | RecvResult.data buf =>
      match process_bytes cb (fd : ℤ) buf with
      | none => none
      | some (_, evs) =>
        some (Ev.accept (fd : ℤ) :: Ev.recv (fd : ℤ) buf.length ::
          (evs ++ [Ev.close (fd : ℤ), Ev.delay 10]))
    | RecvResult.peerClosed =>
      some [Ev.accept (fd : ℤ), Ev.recv (fd : ℤ) 0, Ev.close (fd : ℤ), Ev.delay 10]
    | RecvResult.recvError =>
      some [Ev.accept (fd : ℤ), Ev.close (fd : ℤ), Ev.delay 10]

/-- The serve loop run over a finite schedule of accept outcomes, one per
iteration; the single task executes the iterations strictly in sequence. -/
def serve_loop (cb : Option (ℕ → ℤ → Option (List Ev))) :
    List AcceptOutcome → Option (List Ev)
  | [] => some []
  | conn :: rest =>
    match server_iteration cb conn with
    | none => none
    | some evs =>
      match serve_loop cb rest with
      | none => none
      | some tl => some (evs ++ tl)

/-- `tcp_server_state_t` (tcp_server.c lines 23–28); the callback field is
abstracted to its presence. -/
structure TcpServerState where
  server_fd : ℤ
  port : ℕ
  running : Bool
  hasCallback : Bool
  deriving DecidableEq, Repr

/-- Outcomes of the OS socket calls made by `tcp_server_init`:
`socketResult = some fd` on success (a nonnegative descriptor), `none` when
`socket()` fails and returns −1; `bindOk`/`listenOk` tell whether `bind` and
`listen` succeed. -/
structure NetEnv where
  socketResult : Option ℕ
  bindOk : Bool
  listenOk : Bool
  deriving DecidableEq, Repr

/-- Listener-socket lifecycle events of `tcp_server_init`. -/
inductive NetEv
  | socketCreated (fd : ℕ)
  | closed (fd : ℕ)
  deriving DecidableEq, Repr

/-- `tcp_server_init` (tcp_server.c lines 130–186): port 0 is replaced by
8080; `server_fd` is first reset to −1; `socket()` failure stores −1 and
returns `ESP_FAIL`; `bind`/`listen` failure closes the socket, resets
`server_fd` to −1 and returns `ESP_FAIL`; otherwise the bound, listening
descriptor is stored and `ESP_OK` returned.  (A `setsockopt` failure is only
logged and changes nothing.) -/
def tcp_server_init (env : NetEnv) (port : ℕ) (s : TcpServerState) :
    EspErr × TcpServerState × List NetEv :=
  let p := if port = 0 then 8080 else port
  match env.socketResult with
  | none => (EspErr.fail, ⟨-1, p, s.running, s.hasCallback⟩, [])
  | some fd =>
    if env.bindOk = false then
      (EspErr.fail, ⟨-1, p, s.running, s.hasCallback⟩,
        [NetEv.socketCreated fd, NetEv.closed fd])
    else if env.listenOk = false then
      (EspErr.fail, ⟨-1, p, s.running, s.hasCallback⟩,
        [NetEv.socketCreated fd, NetEv.closed fd])
    else
      (EspErr.ok, ⟨(fd : ℤ), p, s.running, s.hasCallback⟩,
        [NetEv.socketCreated fd])

/-- `tcp_server_start` (tcp_server.c lines 188–218): refuses to serve when no
listening socket is stored; `taskOk` is the `xTaskCreate` outcome.  The
boolean result tells whether a serve task was created. -/
def tcp_server_start (taskOk : Bool) (s : TcpServerState) : EspErr × Bool :=
  if s.server_fd < 0 then (EspErr.invalidState, false)
  else if s.running then (EspErr.ok, false)
  else if taskOk then (EspErr.ok, true)
  else (EspErr.fail, false)

/-- A hardware environment in which every comparator write succeeds. -/
def hwOk : ℕ → EspErr := fun _ => EspErr.ok

/-- The servo configuration `servo_control_task` builds (main.c lines
253–261): calibration 500 µs / 2500 µs. -/
def cfg0 : Sg90Config := ⟨500, 2500⟩

/-! ## Basic facts about the servo layer -/

lemma clampAngle_nonneg (a : ℚ) : 0 ≤ clampAngle a := by
  unfold clampAngle
  split_ifs <;> linarith

lemma clampAngle_le_180 (a : ℚ) : clampAngle a ≤ 180 := by
  unfold clampAngle
  split_ifs <;> linarith

lemma clampAngle_mono {a b : ℚ} (hab : a ≤ b) : clampAngle a ≤ clampAngle b := by
  unfold clampAngle
  split_ifs <;> linarith

lemma pulse_width_for_angle_zero (mn mx : ℚ) : pulse_width_for_angle 0 mn mx = mn := by
  have h0 : clampAngle 0 = 0 := by norm_num [clampAngle]
  rw [pulse_width_for_angle, h0]
  ring

/-- Inversion of a successful return of `sg90_set_angle`: the trace is the
single comparator write of the interpolated pulse width, and the result is
`ESP_OK` (the only failing call site is wrapped in `ESP_ERROR_CHECK`, which
aborts instead of returning). -/
lemma sg90_set_angle_eq_some {hw : ℕ → EspErr} {config : Sg90Config} {a : ℚ}
    {tr : List Ev} {r : EspErr} (h : sg90_set_angle hw config a = some (tr, r)) :
    tr = [Ev.setDuty (castU32 (pulse_width_for_angle a
      config.min_pulse_width_us config.max_pulse_width_us))] ∧ r = EspErr.ok := by
  unfold sg90_set_angle at h
  dsimp only at h
  split at h
  · simp_all
  · cases h
  · cases h

/-- Inversion of a successful return of `sg90_set_angle_with_reset`: the
trace is target write, delay, home write, and the result is `ESP_OK`. -/
lemma sg90_set_angle_with_reset_eq_some {hw : ℕ → EspErr} {config : Sg90Config}
    {a : ℚ} {ms : ℕ} {tr : List Ev} {r : EspErr}
    (h : sg90_set_angle_with_reset hw config a ms = some (tr, r)) :
    r = EspErr.ok ∧
    tr = [Ev.setDuty (castU32 (pulse_width_for_angle a
        config.min_pulse_width_us config.max_pulse_width_us)),
      Ev.delay ms,
      Ev.setDuty (castU32 (pulse_width_for_angle 0
        config.min_pulse_width_us config.max_pulse_width_us))] := by
  unfold sg90_set_angle_with_reset at h
  rcases h1 : sg90_set_angle hw config a with _ | ⟨tr1, r1⟩ <;> rw [h1] at h
  · cases h
  · obtain ⟨htr1, hr1⟩ := sg90_set_angle_eq_some h1
    subst htr1 hr1
    simp only [ne_eq, not_true_eq_false, if_false, reduceIte] at h
    rcases h2 : sg90_set_angle hw config 0 with _ | ⟨tr2, r2⟩ <;> rw [h2] at h
    · cases h
    · obtain ⟨htr2, hr2⟩ := sg90_set_angle_eq_some h2
      subst htr2 hr2
      simp only [Option.some.injEq, Prod.mk.injEq] at h
      obtain ⟨h3, h4⟩ := h
      subst h3
      exact ⟨h4.symm, rfl⟩

lemma dutyAfter_three (d0 wa w0 ms : ℕ) :
    dutyAfter d0 [Ev.setDuty wa, Ev.delay ms, Ev.setDuty w0] = w0 := by
  simp [dutyAfter]

/-! ## Claims about the actuator layer -/

/-- C1: for every digit d in 0..9 the digit-to-angle lookup
(`command_angle_map[d]`) gives exactly the table
[0,18,36,54,72,90,108,126,144,180]; the final entry is 180 (not 162), so the
last step (36) differs from the uniform stride (18). -/
theorem angle_table_exact :
    (∀ d : Fin 10, angle_for_digit d =
      [0, 18, 36, 54, 72, 90, 108, 126, 144, 180].getD d.val 0)
    ∧ angle_for_digit 9 = 180
    ∧ angle_for_digit 9 - angle_for_digit 8 = 36
    ∧ angle_for_digit 8 - angle_for_digit 7 = 18
    ∧ angle_for_digit 1 - angle_for_digit 0 = 18 := by
  decide

/-- C2: whenever `sg90_set_angle_with_reset` returns, it returned `ESP_OK`,
its trace is: apply the commanded angle, block for the delay, re-apply the
home angle 0°; and whatever duty the Pulse Generator held before, afterwards
its duty is the home (0°) pulse width `min_pulse_width_us`, regardless of the
commanded angle. -/
theorem set_angle_with_reset_auto_home (hw : ℕ → EspErr) (config : Sg90Config)
    (angle : ℚ) (reset_delay_ms : ℕ) (tr : List Ev) (ret : EspErr)
    (h : sg90_set_angle_with_reset hw config angle reset_delay_ms = some (tr, ret)) :
    ret = EspErr.ok
    ∧ tr = [Ev.setDuty (castU32 (pulse_width_for_angle angle
          config.min_pulse_width_us config.max_pulse_width_us)),
        Ev.delay reset_delay_ms,
        Ev.setDuty (castU32 config.min_pulse_width_us)]
    ∧ ∀ d0 : ℕ, dutyAfter d0 tr = castU32 config.min_pulse_width_us := by
  obtain ⟨hret, htr⟩ := sg90_set_angle_with_reset_eq_some h
  rw [pulse_width_for_angle_zero] at htr
  subst htr
  exact ⟨hret, rfl, fun d0 => dutyAfter_three ..⟩

theorem set_angle_with_reset_auto_home_witness :
    sg90_set_angle_with_reset hwOk cfg0 137 1000 =
      some ([Ev.setDuty 2022, Ev.delay 1000, Ev.setDuty 500], EspErr.ok)
    ∧ dutyAfter 1500 [Ev.setDuty 2022, Ev.delay 1000, Ev.setDuty 500] =
      castU32 cfg0.min_pulse_width_us := by
  have h : sg90_set_angle_with_reset hwOk cfg0 137 1000 =
      some ([Ev.setDuty 2022, Ev.delay 1000, Ev.setDuty 500], EspErr.ok) := by
    norm_num [sg90_set_angle_with_reset, sg90_set_angle, hwOk, cfg0, castU32,
      pulse_width_for_angle, clampAngle]
    decide
  exact ⟨h, (set_angle_with_reset_auto_home hwOk cfg0 137 1000 _ _ h).2.2 1500⟩

/-- C3: `sg90_set_angle` clamps every input angle to the nearest bound of
[0,180] and the single duty it hands the Pulse Generator is computed from
that clamped angle only. -/
theorem set_angle_clamps (hw : ℕ → EspErr) (config : Sg90Config) (a : ℚ)
    (tr : List Ev) (r : EspErr) (h : sg90_set_angle hw config a = some (tr, r)) :
    0 ≤ clampAngle a ∧ clampAngle a ≤ 180
    ∧ (a < 0 → clampAngle a = 0)
    ∧ (180 < a → clampAngle a = 180)
    ∧ (0 ≤ a → a ≤ 180 → clampAngle a = a)
    ∧ tr = [Ev.setDuty (castU32 (config.min_pulse_width_us +
        (clampAngle a / 180) *
          (config.max_pulse_width_us - config.min_pulse_width_us)))] := by
  refine ⟨clampAngle_nonneg a, clampAngle_le_180 a, ?_, ?_, ?_, ?_⟩
  · intro ha
    simp [clampAngle, ha]
  · intro ha
    rw [clampAngle, if_neg (by linarith), if_pos ha]
  · intro h0 h180
    rw [clampAngle, if_neg (by linarith), if_neg (by linarith)]
  · exact (sg90_set_angle_eq_some h).1

theorem set_angle_clamps_witness :
    sg90_set_angle hwOk cfg0 200 = some ([Ev.setDuty 2500], EspErr.ok)
    ∧ clampAngle 200 = 180
    ∧ [Ev.setDuty 2500] = [Ev.setDuty (castU32 (cfg0.min_pulse_width_us +
        (clampAngle 200 / 180) *
          (cfg0.max_pulse_width_us - cfg0.min_pulse_width_us)))] := by
  have h : sg90_set_angle hwOk cfg0 200 = some ([Ev.setDuty 2500], EspErr.ok) := by
    norm_num [sg90_set_angle, hwOk, cfg0, castU32, pulse_width_for_angle, clampAngle]
    decide
  have hc := set_angle_clamps hwOk cfg0 200 _ _ h
  exact ⟨h, hc.2.2.2.1 (by norm_num), hc.2.2.2.2.2⟩

/-- C4: the pulse width of `sg90_set_angle` is
min_us + (angle/180)·(max_us − min_us) on the clamped angle; with the
500/2500 calibration it is 500 at 0°, 1500 at 90° and 2500 at 180°; it is
monotone in the angle whenever min_us ≤ max_us; and the duty written is the
truncation of exactly this value. -/
theorem pulse_width_linear_monotone :
    pulse_width_for_angle 0 500 2500 = 500
    ∧ pulse_width_for_angle 90 500 2500 = 1500
    ∧ pulse_width_for_angle 180 500 2500 = 2500
    ∧ (∀ a mn mx : ℚ, pulse_width_for_angle a mn mx =
        mn + (clampAngle a / 180) * (mx - mn))
    ∧ (∀ mn mx a b : ℚ, mn ≤ mx → a ≤ b →
        pulse_width_for_angle a mn mx ≤ pulse_width_for_angle b mn mx)
    ∧ ∀ (hw : ℕ → EspErr) (config : Sg90Config) (a : ℚ) (tr : List Ev) (r : EspErr),
        sg90_set_angle hw config a = some (tr, r) →
        tr = [Ev.setDuty (castU32 (pulse_width_for_angle a
          config.min_pulse_width_us config.max_pulse_width_us))] := by
  refine ⟨?_, ?_, ?_, fun a mn mx => rfl, ?_, ?_⟩
  · norm_num [pulse_width_for_angle, clampAngle]
  · norm_num [pulse_width_for_angle, clampAngle]
  · norm_num [pulse_width_for_angle, clampAngle]
  · intro mn mx a b hmn hab
    unfold pulse_width_for_angle
    have hc := clampAngle_mono hab
    have h180 : (0 : ℚ) < 180 := by norm_num
    nlinarith [clampAngle_nonneg a, clampAngle_nonneg b]
  · intro hw config a tr r h
    exact (sg90_set_angle_eq_some h).1

theorem pulse_width_linear_monotone_witness :
    pulse_width_for_angle 45 500 2500 ≤ pulse_width_for_angle 90 500 2500
    ∧ [Ev.setDuty 1500] = [Ev.setDuty (castU32 (pulse_width_for_angle 90
        cfg0.min_pulse_width_us cfg0.max_pulse_width_us))] := by
  have h : sg90_set_angle hwOk cfg0 90 = some ([Ev.setDuty 1500], EspErr.ok) := by
    norm_num [sg90_set_angle, hwOk, cfg0, castU32, pulse_width_for_angle, clampAngle]
    decide
  exact ⟨pulse_width_linear_monotone.2.2.2.2.1 500 2500 45 90 (by norm_num) (by norm_num),
    pulse_width_linear_monotone.2.2.2.2.2 hwOk cfg0 90 _ _ h⟩

/-- C10: `sg90_set_angle` returns `ESP_OK` on every return (its failure mode
aborts via `ESP_ERROR_CHECK` instead of returning), so the early-return
branch of `sg90_set_angle_with_reset` is unreachable: every return of
`sg90_set_angle_with_reset` carries `ESP_OK` and a trace that already
contains the delay and the home re-write. -/
theorem set_angle_always_ok (hw : ℕ → EspErr) (config : Sg90Config)
    (a : ℚ) (ms : ℕ) :
    (∀ tr r, sg90_set_angle hw config a = some (tr, r) → r = EspErr.ok)
    ∧ ∀ tr r, sg90_set_angle_with_reset hw config a ms = some (tr, r) →
        r = EspErr.ok ∧
        ∃ w, tr = [Ev.setDuty w, Ev.delay ms,
          Ev.setDuty (castU32 (pulse_width_for_angle 0
            config.min_pulse_width_us config.max_pulse_width_us))] := by
  constructor
  · intro tr r h
    exact (sg90_set_angle_eq_some h).2
  · intro tr r h
    obtain ⟨hret, htr⟩ := sg90_set_angle_with_reset_eq_some h
    exact ⟨hret, _, htr⟩

theorem set_angle_always_ok_witness :
    ∃ w, [Ev.setDuty 2500, Ev.delay 700, Ev.setDuty 500] =
      [Ev.setDuty w, Ev.delay 700,
        Ev.setDuty (castU32 (pulse_width_for_angle 0
          cfg0.min_pulse_width_us cfg0.max_pulse_width_us))] := by
  have h : sg90_set_angle_with_reset hwOk cfg0 181 700 =
      some ([Ev.setDuty 2500, Ev.delay 700, Ev.setDuty 500], EspErr.ok) := by
    norm_num [sg90_set_angle_with_reset, sg90_set_angle, hwOk, cfg0, castU32,
      pulse_width_for_angle, clampAngle]
    decide
  exact ((set_angle_always_ok hwOk cfg0 181 700).2 _ _ h).2

/-! ## The command handler and the listener's byte classification -/

/-- Inversion of `command_handler` on a digit byte with the servo
initialized: the events are the auto-home servo trace followed by the one
success response. -/
lemma command_handler_digit_eq_some {hw : ℕ → EspErr} {config : Sg90Config}
    {c : ℕ} {fd : ℤ} {evs : List Ev} (h1 : 48 ≤ c) (h2 : c ≤ 57)
    (h : command_handler hw (some config) c fd = some evs) :
    evs = [Ev.setDuty (castU32 (pulse_width_for_angle
        (command_angle_map.getD (c - 48) 0 : ℕ)
        config.min_pulse_width_us config.max_pulse_width_us)),
      Ev.delay 1000,
      Ev.setDuty (castU32 (pulse_width_for_angle 0
        config.min_pulse_width_us config.max_pulse_width_us)),
      Ev.send fd (ok_response c (command_angle_map.getD (c - 48) 0))] := by
  unfold command_handler at h
  rw [if_neg (by omega)] at h
  dsimp only at h
  rcases h3 : sg90_set_angle_with_reset hw config
      (command_angle_map.getD (c - 48) 0 : ℕ) 1000 with _ | ⟨tr, ret⟩ <;>
    rw [h3] at h
  · cases h
  · obtain ⟨-, htr⟩ := sg90_set_angle_with_reset_eq_some h3
    subst htr
    simp only [Option.some.injEq] at h
    exact h.symm

/-- Inversion of `command_handler` on a non-digit byte: no effect at all. -/
lemma command_handler_nondigit {hw : ℕ → EspErr} {g : Option Sg90Config}
    {c : ℕ} {fd : ℤ} (hc : c < 48 ∨ 57 < c) :
    command_handler hw g c fd = some [] := by
  unfold command_handler
  rw [if_pos hc]

/-- The commands dispatched to the registered callback are exactly the digit
bytes of the buffer, in buffer order. -/
lemma process_bytes_dispatched {f : ℕ → ℤ → Option (List Ev)} {fd : ℤ} :
    ∀ buf ds evs, process_bytes (some f) fd buf = some (ds, evs) →
      ds = buf.filter isDigitByte := by
  intro buf
  induction buf with
  | nil =>
    intro ds evs h
    simp only [process_bytes, Option.some.injEq, Prod.mk.injEq] at h
    simp [← h.1]
  | cons c rest ih =>
    intro ds evs h
    unfold process_bytes at h
    dsimp only at h
    by_cases hd : isDigitByte c
    · rw [if_pos hd] at h
      split at h
      · rename_i evs1 ds' tl hf hr
        simp only [Option.some.injEq, Prod.mk.injEq] at h
        rw [← h.1, List.filter_cons, if_pos hd, ih ds' tl hr]
      · cases h
    · rw [if_neg hd] at h
      by_cases hcr : isCrLf c
      · rw [if_pos hcr] at h
        rw [List.filter_cons, if_neg hd]
        exact ih ds evs h
      · rw [if_neg hcr] at h
        split at h
        · rename_i ds' evs' hr
          simp only [Option.some.injEq, Prod.mk.injEq] at h
          rw [← h.1, List.filter_cons, if_neg hd]
          exact ih ds' evs' hr
        · cases h

/-- C5: for every received buffer the listener invokes the registered
handler exactly on the bytes in '0'..'9', in buffer order; a lone CR or LF
byte produces nothing at all; any other non-digit byte produces exactly a
warning, with no handler call and no response; and the payload "a7\n"
(bytes 97, 55, 10) produces exactly one command effect (digit 7, 126°) and
exactly one response line. -/
theorem listener_byte_classification (f : ℕ → ℤ → Option (List Ev)) (fd : ℤ) :
    (∀ buf ds evs, process_bytes (some f) fd buf = some (ds, evs) →
        ds = buf.filter isDigitByte)
    ∧ (∀ c, isCrLf c = true → process_bytes (some f) fd [c] = some ([], []))
    ∧ (∀ c, isDigitByte c = false → isCrLf c = false →
        process_bytes (some f) fd [c] = some ([], [Ev.warn c]))
    ∧ process_bytes (some (command_handler hwOk (some cfg0))) fd [97, 55, 10] =
        some ([55], [Ev.warn 97, Ev.setDuty 1900, Ev.delay 1000, Ev.setDuty 500,
          Ev.send fd (ok_response 55 126)])
    ∧ sendsOf [Ev.warn 97, Ev.setDuty 1900, Ev.delay 1000, Ev.setDuty 500,
        Ev.send fd (ok_response 55 126)] = [ok_response 55 126] := by
  refine ⟨fun buf ds evs h => process_bytes_dispatched buf ds evs h, ?_, ?_, ?_, ?_⟩
  · intro c hcr
    have hc : c = 10 ∨ c = 13 := of_decide_eq_true hcr
    rcases hc with hc | hc <;> subst hc <;> norm_num [process_bytes, isDigitByte, isCrLf]
  · intro c hd hcr
    unfold process_bytes
    rw [if_neg (by simp [hd]), if_neg (by simp [hcr])]
    simp [process_bytes]
  · norm_num [process_bytes, isDigitByte, isCrLf, command_handler, command_angle_map,
      sg90_set_angle_with_reset, sg90_set_angle, hwOk, cfg0, castU32,
      pulse_width_for_angle, clampAngle]
    decide
  · simp [sendsOf]

theorem listener_byte_classification_witness :
    [(55 : ℕ)] = [97, 55, 10].filter isDigitByte
    ∧ process_bytes (some (command_handler hwOk (some cfg0))) 4 [13] = some ([], [])
    ∧ process_bytes (some (command_handler hwOk (some cfg0))) 4 [97] =
        some ([], [Ev.warn 97]) := by
  have h := listener_byte_classification (command_handler hwOk (some cfg0)) 4
  refine ⟨?_, h.2.1 13 (by decide), h.2.2.1 97 (by decide) (by decide)⟩
  exact h.1 [97, 55, 10] _ _ h.2.2.2.1

/-- C7: with the servo initialized, a digit command c writes back on the
same connection exactly the one response string
"OK: Command <c> -> Angle <n>° (auto reset in 1s)\n" with <n> the table
angle for c, and nothing else; for '5' (byte 53) the string is exactly
"OK: Command 5 -> Angle 90° (auto reset in 1s)\n". -/
theorem handler_success_response (hw : ℕ → EspErr) (config : Sg90Config)
    (c : ℕ) (fd : ℤ) (evs : List Ev) (h1 : 48 ≤ c) (h2 : c ≤ 57)
    (h : command_handler hw (some config) c fd = some evs) :
    sendsOf evs = [ok_response c (command_angle_map.getD (c - 48) 0)]
    ∧ evs = [Ev.setDuty (castU32 (pulse_width_for_angle
          (command_angle_map.getD (c - 48) 0 : ℕ)
          config.min_pulse_width_us config.max_pulse_width_us)),
        Ev.delay 1000,
        Ev.setDuty (castU32 (pulse_width_for_angle 0
          config.min_pulse_width_us config.max_pulse_width_us)),
        Ev.send fd (ok_response c (command_angle_map.getD (c - 48) 0))]
    ∧ ok_response 53 90 = "OK: Command 5 -> Angle 90° (auto reset in 1s)\n" := by
  have he := command_handler_digit_eq_some h1 h2 h
  subst he
  exact ⟨by simp [sendsOf], rfl, by decide⟩

theorem handler_success_response_witness :
    sendsOf [Ev.setDuty 1500, Ev.delay 1000, Ev.setDuty 500,
        Ev.send 7 (ok_response 53 90)] =
      [ok_response 53 (command_angle_map.getD (53 - 48) 0)]
    ∧ ok_response 53 90 = "OK: Command 5 -> Angle 90° (auto reset in 1s)\n" := by
  have h : command_handler hwOk (some cfg0) 53 7 =
      some [Ev.setDuty 1500, Ev.delay 1000, Ev.setDuty 500,
        Ev.send 7 (ok_response 53 90)] := by
    norm_num [command_handler, command_angle_map, sg90_set_angle_with_reset,
      sg90_set_angle, hwOk, cfg0, castU32, pulse_width_for_angle, clampAngle]
    decide
  have hc := handler_success_response hwOk cfg0 53 7 _ (by decide) (by decide) h
  exact ⟨hc.1, hc.2.2⟩

/-- C8: with the servo not initialized (global config NULL), a digit command
produces exactly the response "ERROR: Servo not initialized\n" and no duty
value is ever written to the Pulse Generator. -/
theorem handler_uninitialized (hw : ℕ → EspErr) (c : ℕ) (fd : ℤ)
    (h1 : 48 ≤ c) (h2 : c ≤ 57) :
    command_handler hw none c fd = some [Ev.send fd err_response]
    ∧ err_response = "ERROR: Servo not initialized\n"
    ∧ ∀ evs, command_handler hw none c fd = some evs →
        dutyWritesOf evs = [] ∧ sendsOf evs = [err_response] := by
  have he : command_handler hw none c fd = some [Ev.send fd err_response] := by
    unfold command_handler
    rw [if_neg (by omega)]
  refine ⟨he, rfl, fun evs hevs => ?_⟩
  rw [he] at hevs
  simp only [Option.some.injEq] at hevs
  subst hevs
  simp [dutyWritesOf, sendsOf]

theorem handler_uninitialized_witness :
    command_handler hwOk none 53 7 = some [Ev.send 7 err_response]
    ∧ dutyWritesOf [Ev.send 7 err_response] = [] := by
  have h := handler_uninitialized hwOk 53 7 (by decide) (by decide)
  exact ⟨h.1, (h.2.2 _ h.1).1⟩

/-! ## Listener initialization -/

/-- C9: `tcp_server_init` returns a failure whenever socket creation, bind,
or listen fails; on every failure path every socket it created is closed and
the stored descriptor ends at −1, so `tcp_server_start` on the resulting
state refuses to serve; and it returns success exactly when all three OS
calls succeed. -/
theorem tcp_init_failure_paths (env : NetEnv) (port : ℕ) (s : TcpServerState) :
    (env.socketResult = none ∨ env.bindOk = false ∨ env.listenOk = false →
      (tcp_server_init env port s).1 = EspErr.fail
      ∧ (tcp_server_init env port s).2.1.server_fd = -1
      ∧ (∀ fd, NetEv.socketCreated fd ∈ (tcp_server_init env port s).2.2 →
          NetEv.closed fd ∈ (tcp_server_init env port s).2.2)
      ∧ ∀ taskOk, tcp_server_start taskOk (tcp_server_init env port s).2.1 =
          (EspErr.invalidState, false))
    ∧ (∀ fd, env.socketResult = some fd → env.bindOk = true →
        env.listenOk = true →
        (tcp_server_init env port s).1 = EspErr.ok
        ∧ (tcp_server_init env port s).2.1.server_fd = (fd : ℤ)) := by
  obtain ⟨sr, bo, lo⟩ := env
  rcases sr with _ | fd <;> cases bo <;> cases lo <;>
    simp [tcp_server_init, tcp_server_start]

theorem tcp_init_failure_paths_witness :
    (tcp_server_init ⟨none, true, true⟩ 0 ⟨-1, 0, false, false⟩).1 = EspErr.fail
    ∧ (∀ taskOk, tcp_server_start taskOk
        (tcp_server_init ⟨none, true, true⟩ 0 ⟨-1, 0, false, false⟩).2.1 =
        (EspErr.invalidState, false))
    ∧ (tcp_server_init ⟨some 3, true, true⟩ 8080 ⟨-1, 0, false, false⟩).1 =
        EspErr.ok := by
  have h1 := (tcp_init_failure_paths ⟨none, true, true⟩ 0
    ⟨-1, 0, false, false⟩).1 (Or.inl rfl)
  have h2 := (tcp_init_failure_paths ⟨some 3, true, true⟩ 8080
    ⟨-1, 0, false, false⟩).2 3 rfl rfl rfl
  exact ⟨h1.1, h1.2.2.2, h2.1⟩

/-! ## Sequentiality of the serve loop -/

lemma countAccepts_append (a b : List Ev) :
    countAccepts (a ++ b) = countAccepts a + countAccepts b := by
  simp [countAccepts, List.filter_append]

lemma countCloses_append (a b : List Ev) :
    countCloses (a ++ b) = countCloses a + countCloses b := by
  simp [countCloses, List.filter_append]

lemma countRecvs_append (a b : List Ev) :
    countRecvs (a ++ b) = countRecvs a + countRecvs b := by
  simp [countRecvs, List.filter_append]

lemma countAccepts_cons (e : Ev) (l : List Ev) :
    countAccepts (e :: l) = (if isAcceptEv e then 1 else 0) + countAccepts l := by
  rcases e <;> simp [countAccepts, isAcceptEv, List.filter_cons] <;> omega

lemma countCloses_cons (e : Ev) (l : List Ev) :
    countCloses (e :: l) = (if isCloseEv e then 1 else 0) + countCloses l := by
  rcases e <;> simp [countCloses, isCloseEv, List.filter_cons] <;> omega

lemma countRecvs_cons (e : Ev) (l : List Ev) :
    countRecvs (e :: l) = (if isRecvEv e then 1 else 0) + countRecvs l := by
  rcases e <;> simp [countRecvs, isRecvEv, List.filter_cons] <;> omega

lemma countAccepts_nil : countAccepts [] = 0 := rfl

lemma countCloses_nil : countCloses [] = 0 := rfl

lemma countRecvs_nil : countRecvs [] = 0 := rfl

lemma countAccepts_accept_inside (a b : List Ev) (f : ℤ) :
    0 < countAccepts (a ++ Ev.accept f :: b) := by
  rw [countAccepts_append, countAccepts_cons]
  simp [isAcceptEv]

/-- The command handler never touches the listener socket: its events contain
no accept, no close and no recv. -/
lemma command_handler_counts {hw : ℕ → EspErr} {gcfg : Option Sg90Config}
    {c : ℕ} {fd : ℤ} {evs : List Ev}
    (h : command_handler hw gcfg c fd = some evs) :
    countAccepts evs = 0 ∧ countCloses evs = 0 ∧ countRecvs evs = 0 := by
  by_cases hc : c < 48 ∨ 57 < c
  · unfold command_handler at h
    rw [if_pos hc] at h
    simp only [Option.some.injEq] at h
    subst h
    simp [countAccepts, countCloses, countRecvs]
  · rcases gcfg with _ | config
    · unfold command_handler at h
      rw [if_neg hc] at h
      dsimp only at h
      simp only [Option.some.injEq] at h
      subst h
      simp [countAccepts, countCloses, countRecvs, isAcceptEv, isCloseEv, isRecvEv]
    · unfold command_handler at h
      rw [if_neg hc] at h
      dsimp only at h
      rcases h3 : sg90_set_angle_with_reset hw config
          (command_angle_map.getD (c - 48) 0 : ℕ) 1000 with _ | ⟨tr, ret⟩ <;>
        rw [h3] at h
      · cases h
      · obtain ⟨-, htr⟩ := sg90_set_angle_with_reset_eq_some h3
        subst htr
        simp only [Option.some.injEq] at h
        subst h
        simp [countAccepts, countCloses, countRecvs, isAcceptEv, isCloseEv, isRecvEv]

/-- The byte-dispatch loop never touches the listener socket either. -/
lemma process_bytes_counts {hw : ℕ → EspErr} {gcfg : Option Sg90Config} {fd : ℤ} :
    ∀ buf ds evs,
      process_bytes (some (command_handler hw gcfg)) fd buf = some (ds, evs) →
      countAccepts evs = 0 ∧ countCloses evs = 0 ∧ countRecvs evs = 0 := by
  intro buf
  induction buf with
  | nil =>
    intro ds evs h
    simp only [process_bytes, Option.some.injEq, Prod.mk.injEq] at h
    rw [← h.2]
    simp [countAccepts, countCloses, countRecvs]
  | cons c rest ih =>
    intro ds evs h
    unfold process_bytes at h
    dsimp only at h
    by_cases hd : isDigitByte c
    · rw [if_pos hd] at h
      split at h
      · rename_i evs1 ds' tl hf hr
        simp only [Option.some.injEq, Prod.mk.injEq] at h
        obtain ⟨h1c, h2c⟩ := command_handler_counts hf
        obtain ⟨h1r, h2r⟩ := ih ds' tl hr
        rw [← h.2]
        simp [countAccepts_append, countCloses_append, countRecvs_append,
          h1c, h2c.1, h2c.2, h1r, h2r.1, h2r.2]
      · cases h
    · rw [if_neg hd] at h
      by_cases hcr : isCrLf c
      · rw [if_pos hcr] at h
        exact ih ds evs h
      · rw [if_neg hcr] at h
        split at h
        · rename_i ds' evs' hr
          simp only [Option.some.injEq, Prod.mk.injEq] at h
          obtain ⟨h1r, h2r⟩ := ih ds' evs' hr
          rw [← h.2]
          simp [countAccepts, countCloses, countRecvs, isAcceptEv, isCloseEv,
            isRecvEv] at h1r h2r ⊢
          exact ⟨h1r, h2r⟩
        · cases h

/-- Shape of one successfully-accepted connection's episode: accept first,
then a body free of accept/close, then close, then the 10 ms sleep; with at
most one recv overall. -/
lemma server_iteration_pending_shape {hw : ℕ → EspErr} {gcfg : Option Sg90Config}
    {fd : ℕ} {r : RecvResult} {evs : List Ev}
    (h : server_iteration (some (command_handler hw gcfg))
      (AcceptOutcome.pending fd r) = some evs) :
    ∃ mid, evs = Ev.accept (fd : ℤ) :: (mid ++ [Ev.close (fd : ℤ), Ev.delay 10])
      ∧ countAccepts mid = 0 ∧ countCloses mid = 0 ∧ countRecvs evs ≤ 1 := by
  rcases r with buf | _ | _
  · unfold server_iteration at h
    dsimp only at h
    rcases hp : process_bytes (some (command_handler hw gcfg)) (fd : ℤ) buf
        with _ | ⟨ds, pevs⟩ <;> rw [hp] at h
    · cases h
    · simp only [Option.some.injEq] at h
      subst h
      obtain ⟨hpa, hpc, hpr⟩ := process_bytes_counts buf ds pevs hp
      refine ⟨Ev.recv (fd : ℤ) buf.length :: pevs, by simp, ?_, ?_, ?_⟩
      · simp [countAccepts_cons, isAcceptEv, hpa]
      · simp [countCloses_cons, isCloseEv, hpc]
      · simp [countRecvs_cons, countRecvs_append, countRecvs_nil, isRecvEv, hpr]
  · unfold server_iteration at h
    simp only [Option.some.injEq] at h
    subst h
    exact ⟨[Ev.recv (fd : ℤ) 0], by simp, by simp [countAccepts, isAcceptEv],
      by simp [countCloses, isCloseEv], by simp [countRecvs, isRecvEv]⟩
  · unfold server_iteration at h
    simp only [Option.some.injEq] at h
    subst h
    exact ⟨[], by simp, by simp [countAccepts],
      by simp [countCloses], by simp [countRecvs, isRecvEv]⟩

/-- Per-iteration invariants: accepts and closes balance out, at most one
recv, and any accept event sits at the very front of the iteration's
events. -/
lemma server_iteration_invariants {hw : ℕ → EspErr} {gcfg : Option Sg90Config}
    {conn : AcceptOutcome} {evs : List Ev}
    (h : server_iteration (some (command_handler hw gcfg)) conn = some evs) :
    countAccepts evs = countCloses evs
    ∧ countRecvs evs ≤ 1
    ∧ ∀ pfx f rest, evs = pfx ++ Ev.accept f :: rest →
        countAccepts pfx = 0 ∧ countCloses pfx = 0 := by
  rcases conn with ⟨fd, r⟩ | _ | _
  · obtain ⟨mid, hevs, hma, hmc, hrecv⟩ := server_iteration_pending_shape h
    subst hevs
    refine ⟨?_, hrecv, ?_⟩
    · simp [countAccepts_cons, countCloses_cons, countAccepts_append,
        countCloses_append, countAccepts_nil, countCloses_nil,
        isAcceptEv, isCloseEv, hma, hmc]
    · intro pfx f rest hdec
      rcases pfx with _ | ⟨e, pfx⟩
      · exact ⟨rfl, rfl⟩
      · simp only [List.cons_append, List.cons.injEq] at hdec
        obtain ⟨-, htail⟩ := hdec
        have h1 : 0 < countAccepts (pfx ++ Ev.accept f :: rest) :=
          countAccepts_accept_inside ..
        rw [← htail, countAccepts_append] at h1
        have h2 : countAccepts [Ev.close (fd : ℤ), Ev.delay 10] = 0 := rfl
        omega
  · unfold server_iteration at h
    simp only [Option.some.injEq] at h
    subst h
    refine ⟨by simp [countAccepts, countCloses, isAcceptEv, isCloseEv],
      by simp [countRecvs, isRecvEv], ?_⟩
    intro pfx f rest hdec
    rcases pfx with _ | ⟨e, pfx⟩ <;> simp_all
  · unfold server_iteration at h
    simp only [Option.some.injEq] at h
    subst h
    refine ⟨by simp [countAccepts, countCloses, isAcceptEv, isCloseEv],
      by simp [countRecvs, isRecvEv], ?_⟩
    intro pfx f rest hdec
    rcases pfx with _ | ⟨e, pfx⟩ <;> simp_all

/-- Across the whole serve loop: a new connection is accepted only when every
previously accepted connection has already been closed. -/
lemma serve_loop_accepts_balanced {hw : ℕ → EspErr} {gcfg : Option Sg90Config} :
    ∀ conns tr, serve_loop (some (command_handler hw gcfg)) conns = some tr →
      (∀ pfx f rest, tr = pfx ++ Ev.accept f :: rest →
        countAccepts pfx = countCloses pfx)
      ∧ countAccepts tr = countCloses tr := by
  intro conns
  induction conns with
  | nil =>
    intro tr h
    simp only [serve_loop, Option.some.injEq] at h
    subst h
    refine ⟨?_, rfl⟩
    intro pfx f rest hdec
    rcases pfx with _ | ⟨e, pfx⟩ <;> simp_all
  | cons conn rest' ih =>
    intro tr h
    unfold serve_loop at h
    rcases hi : server_iteration (some (command_handler hw gcfg)) conn
        with _ | evs <;> rw [hi] at h
    · cases h
    · rcases hl : serve_loop (some (command_handler hw gcfg)) rest'
          with _ | tl <;> rw [hl] at h
      · cases h
      · simp only [Option.some.injEq] at h
        subst h
        obtain ⟨hbal, -, hfront⟩ := server_iteration_invariants hi
        obtain ⟨IH1, IH2⟩ := ih tl hl
        constructor
        · intro pfx f sfx hdec
          rcases List.append_eq_append_iff.mp hdec with ⟨a', ha1, ha2⟩ | ⟨c', hc1, hc2⟩
          · have ha' := IH1 a' f sfx ha2
            rw [ha1, countAccepts_append, countCloses_append, hbal, ha']
          · rcases c' with _ | ⟨e, c''⟩
            · rw [List.append_nil] at hc1
              rw [hc1] at hbal
              exact hbal
            · simp only [List.cons_append, List.cons.injEq] at hc2
              obtain ⟨he, -⟩ := hc2
              rw [← he] at hc1
              obtain ⟨hz1, hz2⟩ := hfront pfx f c'' hc1
              rw [hz1, hz2]
        · rw [countAccepts_append, countCloses_append, hbal, IH2]

/-- C6: the serve loop handles connections strictly one at a time.  In every
trace the loop can produce: (1) an accept happens only when the numbers of
past accepts and closes agree, i.e. no connection is open — so while a
connection is being serviced (including any auto-home delay its digit
commands trigger inside its episode) no further connection is accepted;
(2) every successfully accepted connection's episode is: accept, then a body
with no accept and no close, then close, then the iteration sleep; (3) each
iteration performs at most one recv. -/
theorem serve_loop_sequential (hw : ℕ → EspErr) (gcfg : Option Sg90Config)
    (conns : List AcceptOutcome) (tr : List Ev)
    (h : serve_loop (some (command_handler hw gcfg)) conns = some tr) :
    (∀ pfx f rest, tr = pfx ++ Ev.accept f :: rest →
      countAccepts pfx = countCloses pfx)
    ∧ (∀ conn evs, server_iteration (some (command_handler hw gcfg)) conn =
        some evs → countRecvs evs ≤ 1 ∧ countAccepts evs = countCloses evs)
    ∧ ∀ fd r evs, server_iteration (some (command_handler hw gcfg))
        (AcceptOutcome.pending fd r) = some evs →
        ∃ mid, evs = Ev.accept (fd : ℤ) :: (mid ++ [Ev.close (fd : ℤ), Ev.delay 10])
          ∧ countAccepts mid = 0 ∧ countCloses mid = 0 := by
  refine ⟨(serve_loop_accepts_balanced conns tr h).1, ?_, ?_⟩
  · intro conn evs hi
    obtain ⟨h1, h2, -⟩ := server_iteration_invariants hi
    exact ⟨h2, h1⟩
  · intro fd r evs hi
    obtain ⟨mid, h1, h2, h3, -⟩ := server_iteration_pending_shape hi
    exact ⟨mid, h1, h2, h3⟩

theorem serve_loop_sequential_witness :
    ∃ tr, serve_loop (some (command_handler hwOk (some cfg0)))
        [AcceptOutcome.pending 5 (RecvResult.data [53, 10]),
         AcceptOutcome.wouldBlock,
         AcceptOutcome.pending 6 RecvResult.peerClosed] = some tr
      ∧ (∀ pfx f rest, tr = pfx ++ Ev.accept f :: rest →
          countAccepts pfx = countCloses pfx)
      ∧ countAccepts tr = 2 := by
  have h : serve_loop (some (command_handler hwOk (some cfg0)))
      [AcceptOutcome.pending 5 (RecvResult.data [53, 10]),
       AcceptOutcome.wouldBlock,
       AcceptOutcome.pending 6 RecvResult.peerClosed] =
      some ([Ev.accept 5, Ev.recv 5 2, Ev.setDuty 1500, Ev.delay 1000,
        Ev.setDuty 500, Ev.send 5 (ok_response 53 90), Ev.close 5, Ev.delay 10,
        Ev.delay 100,
        Ev.accept 6, Ev.recv 6 0, Ev.close 6, Ev.delay 10]) := by
    norm_num [serve_loop, server_iteration, process_bytes, isDigitByte, isCrLf,
      command_handler, command_angle_map, sg90_set_angle_with_reset,
      sg90_set_angle, hwOk, cfg0, castU32, pulse_width_for_angle, clampAngle]
    decide
  refine ⟨_, h, (serve_loop_sequential hwOk (some cfg0) _ _ h).1, ?_⟩
  decide

end SmartFishFeeder
